import Mathlib

/-!
Verification of the CKEditor 5 editing-surface tree model core.

Shallow embedding of:
* `packages/ckeditor5-utils/src/difftochanges.ts` (edit-script compressor),
* the view-node variant classes (`containerelement.ts`, `emptyelement.ts`,
  `rawelement.ts`, `uielement.ts`, `rooteditableelement.ts`, `text.ts`),
* `packages/ckeditor5-engine/src/view/node.ts` (index, paths, isBefore),
* `packages/ckeditor5-engine/src/view/documentselection.ts`.

Parts of the repository that the claims depend on but whose sources are not in
the sample (`element.ts`, `comparearrays.ts`, `selection.ts`) are modelled from
the specification; each such definition carries a doc comment starting with
`Modelled from the spec:`.
-/

/- ======================================================================
   Section 1. Edit-script compressor (difftochanges.ts)
   ====================================================================== -/

/-- Diff opcode, the elements of the `diff` argument of `diffToChanges`:
one of the strings `'equal' | 'insert' | 'delete'`. -/
inductive DiffResult where
  | equal
  | insert
  | delete
deriving DecidableEq

/-- A change emitted by `diffToChanges`: either
`{ type: 'insert', index, values }` or `{ type: 'delete', index, howMany }`. -/
inductive Change (α : Type) where
  | insert (index : Nat) (values : List α)
  | delete (index : Nat) (howMany : Nat)
deriving DecidableEq

/-- The loop body of `diffToChanges`, with the mutable locals of the source made
explicit: `index` is the cursor, `last` is `lastOperation` (the pending change),
and flushing (`pushLast`) emits the pending change in front of the remainder.
`output.getD index default` embeds the JS element read `output[ index ]`. -/
def diffToChangesGo {α : Type} [Inhabited α] (output : List α) :
    List DiffResult → Nat → Option (Change α) → List (Change α)
  | [], _, last => last.toList
  | DiffResult.equal :: rest, index, last =>
      last.toList ++ diffToChangesGo output rest (index + 1) none
  | DiffResult.insert :: rest, index, last =>
      match last with
      | some (Change.insert j vs) =>
          diffToChangesGo output rest (index + 1)
            (some (Change.insert j (vs ++ [output.getD index default])))
      | _ =>
          last.toList ++ diffToChangesGo output rest (index + 1)
            (some (Change.insert index [output.getD index default]))
  | DiffResult.delete :: rest, index, last =>
      match last with
      | some (Change.delete j n) =>
          diffToChangesGo output rest index (some (Change.delete j (n + 1)))
      | _ =>
          last.toList ++ diffToChangesGo output rest index
            (some (Change.delete index 1))

/-- `diffToChanges( diff, output )` from `difftochanges.ts`: starts with
`index = 0` and no pending operation. -/
def diffToChanges {α : Type} [Inhabited α]
    (diff : List DiffResult) (output : List α) : List (Change α) :=
  diffToChangesGo output diff 0 none

/-- Replaying one change against the input, exactly as the doc comment of
`diffToChanges` prescribes: `input.splice( index, 0, ...values )` for an
insert and `input.splice( index, howMany )` for a delete. -/
def applyChange {α : Type} (input : List α) : Change α → List α
  | Change.insert index values => input.take index ++ values ++ input.drop index
  | Change.delete index howMany => input.take index ++ input.drop (index + howMany)

/-- Replaying an emitted change list against the input in emission order. -/
def replay {α : Type} (changes : List (Change α)) (input : List α) : List α :=
  changes.foldl applyChange input

/-- Validity of an opcode stream as an equal/insert/delete alignment of the
input sequence to the output sequence: `equal` consumes one matching token
from both, `insert` consumes one output token, `delete` one input token. -/
def isAlignment {α : Type} [DecidableEq α] :
    List DiffResult → List α → List α → Bool
  | [], [], [] => true
  | DiffResult.equal :: rest, a :: input, b :: output =>
      if a = b then isAlignment rest input output else false
  | DiffResult.insert :: rest, input, _ :: output => isAlignment rest input output
  | DiffResult.delete :: rest, a :: input, output =>
      let _ := a
      isAlignment rest input output
  | _, _, _ => false

/-- Loop invariant of `diffToChangesGo` relating the full output `T`, the
cursor `i`, the pending operation `last`, the current value `U` of the input
after the already-flushed changes, and the not-yet-consumed input suffix `S`. -/
def CompressorInv {α : Type} (T : List α) (i : Nat)
    (last : Option (Change α)) (U S : List α) : Prop :=
  match last with
  | none => U = T.take i ++ S
  | some (Change.insert j vs) =>
      U = T.take j ++ S ∧ i = j + vs.length ∧ vs = (T.take i).drop j
  | some (Change.delete j n) =>
      j = i ∧ ∃ D : List α, D.length = n ∧ U = T.take i ++ D ++ S

lemma replay_append {α : Type} (c₁ c₂ : List (Change α)) (U : List α) :
    replay (c₁ ++ c₂) U = replay c₂ (replay c₁ U) :=
  List.foldl_append _ _ _ _

lemma replay_flush {α : Type} (T : List α) (i : Nat)
    (last : Option (Change α)) (U S : List α)
    (hInv : CompressorInv T i last U S) (hi : i ≤ T.length) :
    replay last.toList U = T.take i ++ S := by
  match last with
  | none =>
      simpa [replay] using hInv
  | some (Change.insert j vs) =>
      obtain ⟨hU, hij, hvs⟩ := hInv
      have hj : j ≤ i := by omega
      have hjT : j ≤ T.length := le_trans hj hi
      have hlen : (T.take j).length = j := by
        simp [List.length_take, Nat.min_eq_left hjT]
      subst hU
      simp only [replay, Option.toList, List.foldl, applyChange]
      rw [List.take_append_of_le_length (le_of_eq hlen.symm),
        List.drop_append_of_le_length (le_of_eq hlen.symm)]
      rw [List.take_of_length_le (le_of_eq hlen), List.drop_eq_nil_of_le (le_of_eq hlen)]
      rw [hvs]
      have htj : (T.take i).take j = T.take j := by
        rw [List.take_take, Nat.min_eq_left hj]
      have hjoin : T.take j ++ (T.take i).drop j = T.take i := by
        conv_rhs => rw [← List.take_append_drop j (T.take i)]
        rw [htj]
      simp only [List.nil_append]
      rw [hjoin]
  | some (Change.delete j n) =>
      obtain ⟨hji, D, hD, hU⟩ := hInv
      subst hji
      have hlen : (T.take j).length = j := by
        simp [List.length_take, Nat.min_eq_left hi]
      subst hU
      simp only [replay, Option.toList, List.foldl, applyChange]
      rw [List.append_assoc]
      rw [List.take_append_of_le_length (le_of_eq hlen.symm),
        List.take_of_length_le (le_of_eq hlen)]
      have hdrop : (T.take j ++ (D ++ S)).drop (j + n) = S := by
        have h1 : (T.take j ++ (D ++ S)).drop ((T.take j).length + n) = (D ++ S).drop n :=
          List.drop_append n
        rw [hlen] at h1
        rw [h1, ← hD, List.drop_left]
      rw [hdrop]

lemma isAlignment_nil_iff {α : Type} [DecidableEq α] (S T : List α) :
    isAlignment [] S T = true ↔ S = [] ∧ T = [] := by
  cases S <;> cases T <;> simp [isAlignment]

lemma isAlignment_equal_iff {α : Type} [DecidableEq α]
    (rest : List DiffResult) (S Tr : List α) :
    isAlignment (DiffResult.equal :: rest) S Tr = true ↔
      ∃ a S' T', S = a :: S' ∧ Tr = a :: T' ∧ isAlignment rest S' T' = true := by
  cases S with
  | nil => simp [isAlignment]
  | cons a S' =>
      cases Tr with
      | nil => simp [isAlignment]
      | cons b T' =>
          by_cases hab : a = b
          · subst hab
            simp only [isAlignment, if_pos rfl]
            constructor
            · intro h
              exact ⟨a, S', T', rfl, rfl, h⟩
            · rintro ⟨x, xs, ys, h1, h2, h3⟩
              injection h1 with h1a h1s
              injection h2 with h2a h2s
              subst h1a; subst h1s; subst h2s
              exact h3
          · simp only [isAlignment, if_neg hab]
            constructor
            · intro h; exact absurd h (by simp)
            · rintro ⟨x, xs, ys, h1, h2, h3⟩
              injection h1 with h1a _
              injection h2 with h2a _
              exact absurd (h1a.trans h2a.symm) hab

lemma isAlignment_insert_iff {α : Type} [DecidableEq α]
    (rest : List DiffResult) (S Tr : List α) :
    isAlignment (DiffResult.insert :: rest) S Tr = true ↔
      ∃ b T', Tr = b :: T' ∧ isAlignment rest S T' = true := by
  cases Tr with
  | nil => cases S <;> simp [isAlignment]
  | cons b T' =>
      constructor
      · intro h
        exact ⟨b, T', rfl, h⟩
      · rintro ⟨x, ys, h1, h2⟩
        injection h1 with h1a h1s
        subst h1s
        exact h2

lemma isAlignment_delete_iff {α : Type} [DecidableEq α]
    (rest : List DiffResult) (S Tr : List α) :
    isAlignment (DiffResult.delete :: rest) S Tr = true ↔
      ∃ a S', S = a :: S' ∧ isAlignment rest S' Tr = true := by
  cases S with
  | nil => cases Tr <;> simp [isAlignment]
  | cons a S' =>
      constructor
      · intro h
        exact ⟨a, S', rfl, h⟩
      · rintro ⟨x, xs, h1, h2⟩
        injection h1 with h1a h1s
        subst h1s
        exact h2

lemma drop_cons_facts {α : Type} {T T' : List α} {a : α} {i : Nat}
    (hT : T.drop i = a :: T') :
    i < T.length ∧ T.take (i + 1) = T.take i ++ [a] ∧ T.drop (i + 1) = T' := by
  have hlen : T.length - i ≠ 0 := by
    have h := List.length_drop i T
    rw [hT] at h
    simp only [List.length_cons] at h
    omega
  have hiLt : i < T.length := by omega
  have hget : T[i]? = some a := by
    have h0 : (T.drop i)[0]? = T[i + 0]? := List.getElem?_drop T i 0
    rw [hT] at h0
    simpa using h0.symm
  constructor
  · exact hiLt
  constructor
  · rw [List.take_succ, hget]
    rfl
  · have h1 : (T.drop i).drop 1 = T.drop (i + 1) := List.drop_drop 1 i T
    rw [hT] at h1
    simpa using h1.symm

lemma go_step_equal {α : Type} [Inhabited α] (T : List α) (rest : List DiffResult)
    (i : Nat) (last : Option (Change α)) :
    diffToChangesGo T (DiffResult.equal :: rest) i last =
      last.toList ++ diffToChangesGo T rest (i + 1) none := rfl

lemma go_step_insert_none {α : Type} [Inhabited α] (T : List α) (rest : List DiffResult)
    (i : Nat) :
    diffToChangesGo T (DiffResult.insert :: rest) i none =
      diffToChangesGo T rest (i + 1) (some (Change.insert i [T.getD i default])) := rfl

lemma go_step_insert_cont {α : Type} [Inhabited α] (T : List α) (rest : List DiffResult)
    (i j : Nat) (vs : List α) :
    diffToChangesGo T (DiffResult.insert :: rest) i (some (Change.insert j vs)) =
      diffToChangesGo T rest (i + 1)
        (some (Change.insert j (vs ++ [T.getD i default]))) := rfl

lemma go_step_insert_flush {α : Type} [Inhabited α] (T : List α) (rest : List DiffResult)
    (i j n : Nat) :
    diffToChangesGo T (DiffResult.insert :: rest) i (some (Change.delete j n)) =
      [Change.delete j n] ++
        diffToChangesGo T rest (i + 1) (some (Change.insert i [T.getD i default])) := rfl

lemma go_step_delete_none {α : Type} [Inhabited α] (T : List α) (rest : List DiffResult)
    (i : Nat) :
    diffToChangesGo T (DiffResult.delete :: rest) i none =
      diffToChangesGo T rest i (some (Change.delete i 1)) := rfl

lemma go_step_delete_cont {α : Type} [Inhabited α] (T : List α) (rest : List DiffResult)
    (i j n : Nat) :
    diffToChangesGo T (DiffResult.delete :: rest) i (some (Change.delete j n)) =
      diffToChangesGo T rest i (some (Change.delete j (n + 1))) := rfl

lemma go_step_delete_flush {α : Type} [Inhabited α] (T : List α) (rest : List DiffResult)
    (i j : Nat) (vs : List α) :
    diffToChangesGo T (DiffResult.delete :: rest) i (some (Change.insert j vs)) =
      [Change.insert j vs] ++
        diffToChangesGo T rest i (some (Change.delete i 1)) := rfl

theorem diffToChangesGo_spec {α : Type} [DecidableEq α] [Inhabited α] (T : List α) :
    ∀ (ops : List DiffResult) (S : List α) (i : Nat) (last : Option (Change α)) (U : List α),
      isAlignment ops S (T.drop i) = true →
      i ≤ T.length →
      CompressorInv T i last U S →
      replay (diffToChangesGo T ops i last) U = T := by
  intro ops
  induction ops with
  | nil =>
      intro S i last U hAl hi hInv
      obtain ⟨hS, hT⟩ := (isAlignment_nil_iff S (T.drop i)).mp hAl
      subst hS
      have hiT : T.length ≤ i := by
        have hlen0 : (T.drop i).length = 0 := by rw [hT]; rfl
        rw [List.length_drop] at hlen0
        omega
      have hflush : replay last.toList U = T.take i ++ [] :=
        replay_flush T i last U [] hInv hi
      rw [diffToChangesGo, hflush, List.append_nil, List.take_of_length_le hiT]
  | cons op rest ih =>
      intro S i last U hAl hi hInv
      cases op with
      | equal =>
          obtain ⟨a, S', T', hS, hT, hAl'⟩ := (isAlignment_equal_iff rest S (T.drop i)).mp hAl
          subst hS
          obtain ⟨hiLt, htake, hdrop⟩ := drop_cons_facts hT
          rw [go_step_equal, replay_append,
            replay_flush T i last U (a :: S') hInv hi]
          apply ih S' (i + 1) none (T.take i ++ a :: S')
          · rw [hdrop]; exact hAl'
          · omega
          · show T.take i ++ a :: S' = T.take (i + 1) ++ S'
            rw [htake, List.append_assoc]
            rfl
      | insert =>
          obtain ⟨b, T', hT, hAl'⟩ := (isAlignment_insert_iff rest S (T.drop i)).mp hAl
          obtain ⟨hiLt, htake, hdrop⟩ := drop_cons_facts hT
          have hgetD : T.getD i default = b := by
            have hget : T[i]? = some b := by
              have h0 : (T.drop i)[0]? = T[i + 0]? := List.getElem?_drop T i 0
              rw [hT] at h0
              simpa using h0.symm
            rw [List.getD_eq_getD_get?, List.get?_eq_getElem?, hget]
            rfl
          have hlentake : (T.take i).length = i := by
            simp [List.length_take, Nat.min_eq_left hi]
          have hnewInv : [T.getD i default] = (T.take (i + 1)).drop i := by
            rw [hgetD, htake, List.drop_append_of_le_length (le_of_eq hlentake.symm),
              List.drop_eq_nil_of_le (le_of_eq hlentake), List.nil_append]
          rcases last with _ | c
          · rw [go_step_insert_none]
            apply ih S (i + 1) _ U
            · rw [hdrop]; exact hAl'
            · omega
            · exact ⟨hInv, by simp, hnewInv⟩
          · rcases c with ⟨j, vs⟩ | ⟨j, n⟩
            · obtain ⟨hU, hij, hvs⟩ := hInv
              have hj : j ≤ i := by omega
              rw [go_step_insert_cont]
              apply ih S (i + 1) _ U
              · rw [hdrop]; exact hAl'
              · omega
              · refine ⟨hU, by simp; omega, ?_⟩
                have hjlen : j ≤ (T.take i).length := by omega
                rw [hgetD, htake, List.drop_append_of_le_length hjlen, ← hvs]
            · have hfl : replay [Change.delete j n] U = T.take i ++ S :=
                replay_flush T i (some (Change.delete j n)) U S hInv hi
              rw [go_step_insert_flush, replay_append, hfl]
              apply ih S (i + 1) _ (T.take i ++ S)
              · rw [hdrop]; exact hAl'
              · omega
              · exact ⟨rfl, by simp, hnewInv⟩
      | delete =>
          obtain ⟨a, S', hS, hAl'⟩ := (isAlignment_delete_iff rest S (T.drop i)).mp hAl
          subst hS
          rcases last with _ | c
          · rw [go_step_delete_none]
            apply ih S' i _ U
            · exact hAl'
            · exact hi
            · exact ⟨rfl, [a], rfl, by rw [hInv]; simp⟩
          · rcases c with ⟨j, vs⟩ | ⟨j, n⟩
            · have hfl : replay [Change.insert j vs] U = T.take i ++ (a :: S') :=
                replay_flush T i (some (Change.insert j vs)) U (a :: S') hInv hi
              rw [go_step_delete_flush, replay_append, hfl]
              apply ih S' i _ (T.take i ++ a :: S')
              · exact hAl'
              · exact hi
              · exact ⟨rfl, [a], rfl, by simp⟩
            · obtain ⟨hji, D, hD, hU⟩ := hInv
              rw [go_step_delete_cont]
              apply ih S' i _ U
              · exact hAl'
              · exact hi
              · refine ⟨hji, D ++ [a], by simp [hD], ?_⟩
                rw [hU]
                simp

/-- C1: Edit-script round-trip. For every input sequence `S`, output sequence
`T`, and opcode stream `d` that is a valid equal/insert/delete alignment of `S`
to `T`, replaying the changes emitted by `diffToChanges d T` against `S` in
emission order (splicing inserted values in at `change.index` and removing
`howMany` items at `change.index` for deletes) reproduces `T` exactly. -/
theorem diffToChanges_roundtrip {α : Type} [DecidableEq α] [Inhabited α]
    (d : List DiffResult) (S T : List α)
    (h : isAlignment d S T = true) :
    replay (diffToChanges d T) S = T := by
  have h0 : isAlignment d S (T.drop 0) = true := by simpa using h
  exact diffToChangesGo_spec T d S 0 none S h0 (Nat.zero_le _) (by simp [CompressorInv])

/-- Closed witness of `diffToChanges_roundtrip` at a concrete alignment of
`['a','b','c']` to `['x','a','b','y']`. -/
theorem diffToChanges_roundtrip_witness :
    isAlignment
      [DiffResult.insert, DiffResult.equal, DiffResult.equal,
       DiffResult.delete, DiffResult.insert]
      ['a', 'b', 'c'] ['x', 'a', 'b', 'y'] = true ∧
    replay
      (diffToChanges
        [DiffResult.insert, DiffResult.equal, DiffResult.equal,
         DiffResult.delete, DiffResult.insert]
        ['x', 'a', 'b', 'y'])
      ['a', 'b', 'c'] = ['x', 'a', 'b', 'y'] :=
  ⟨by decide, diffToChanges_roundtrip _ _ _ (by decide)⟩

/-- C3 counterexample: running `diffToChanges` on the opcode stream insert,
equal, equal, delete, insert with output `['x','a','b','y']` does NOT produce
the changes insert at 0, delete at index 2, insert at index 2 that the claim
states: by the claim's own index rule the cursor after insert, equal, equal
is 3, not 2. -/
theorem diffToChanges_worked_example_refuted :
    diffToChanges
      [DiffResult.insert, DiffResult.equal, DiffResult.equal,
       DiffResult.delete, DiffResult.insert]
      ['x', 'a', 'b', 'y'] ≠
    [Change.insert 0 ['x'], Change.delete 2 1, Change.insert 2 ['y']] := by
  decide

/-- C3 amended: running `diffToChanges` on the opcode stream insert, equal,
equal, delete, insert with output `['x','a','b','y']` produces exactly the
three changes insert at 0 of `['x']`, delete at index 3 of 1 item, insert at
index 3 of `['y']` — equal and insert advance the index cursor (so it is 3
after insert, equal, equal), delete does not. -/
theorem diffToChanges_worked_example :
    diffToChanges
      [DiffResult.insert, DiffResult.equal, DiffResult.equal,
       DiffResult.delete, DiffResult.insert]
      ['x', 'a', 'b', 'y'] =
    [Change.insert 0 ['x'], Change.delete 3 1, Change.insert 3 ['y']] := by
  decide

/- ======================================================================
   Section 2. View element variants (engine/src/view)
   ====================================================================== -/

/-- The closed set of view element variants appearing in the source sample:
`ContainerElement`, `RootEditableElement`, `EmptyElement`, `RawElement`,
`UIElement`. -/
inductive ElementKind where
  | container
  | rootEditable
  | empty
  | raw
  | ui
deriving DecidableEq

/-- A view node: a text node (`text.ts`) or an element of one of the closed
variants, with its tag name and its ordered child sequence. -/
inductive VNode where
  | text (data : String)
  | element (kind : ElementKind) (name : String) (children : List VNode)

mutual

def VNode.decEq : (a b : VNode) → Decidable (a = b)
  | VNode.text d1, VNode.text d2 =>
      if h : d1 = d2 then isTrue (by rw [h])
      else isFalse (fun hc => by injection hc; contradiction)
  | VNode.text _, VNode.element _ _ _ => isFalse (fun h => VNode.noConfusion h)
  | VNode.element _ _ _, VNode.text _ => isFalse (fun h => VNode.noConfusion h)
  | VNode.element k1 n1 cs1, VNode.element k2 n2 cs2 =>
      if hk : k1 = k2 then
        if hn : n1 = n2 then
          match VNode.decEqList cs1 cs2 with
          | isTrue h3 => isTrue (by rw [hk, hn, h3])
          | isFalse h => isFalse (fun hc => by injection hc; contradiction)
        else isFalse (fun hc => by injection hc; contradiction)
      else isFalse (fun hc => by injection hc; contradiction)

def VNode.decEqList : (as bs : List VNode) → Decidable (as = bs)
  | [], [] => isTrue rfl
  | [], _ :: _ => isFalse (fun h => List.noConfusion h)
  | _ :: _, [] => isFalse (fun h => List.noConfusion h)
  | a :: as2, b :: bs =>
      match VNode.decEq a b with
      | isFalse h => isFalse (fun hc => by injection hc; contradiction)
      | isTrue h1 =>
          match VNode.decEqList as2 bs with
          | isTrue h2 => isTrue (by rw [h1, h2])
          | isFalse h => isFalse (fun hc => by injection hc; contradiction)

end

instance : DecidableEq VNode := VNode.decEq

/-- Single-argument `is( type )` of each view class, transcribed branch by
branch from the `is` overrides of `text.ts`, `containerelement.ts`,
`rooteditableelement.ts`, `emptyelement.ts`, `rawelement.ts` and
`uielement.ts`.  Only `RawElement` also matches its own tag name. -/
def VNode.is (node : VNode) (type : String) : Bool :=
  match node with
  | VNode.text _ =>
      type == "$text" || type == "view:$text" ||
      type == "text" || type == "view:text" ||
      type == "node" || type == "view:node"
  | VNode.element kind name _ =>
      match kind with
      | ElementKind.container =>
          type == "containerElement" || type == "view:containerElement" ||
          type == "element" || type == "view:element" ||
          type == "node" || type == "view:node"
      | ElementKind.rootEditable =>
          type == "rootElement" || type == "view:rootElement" ||
          type == "editableElement" || type == "view:editableElement" ||
          type == "containerElement" || type == "view:containerElement" ||
          type == "element" || type == "view:element" ||
          type == "node" || type == "view:node"
      | ElementKind.empty =>
          type == "emptyElement" || type == "view:emptyElement" ||
          type == "element" || type == "view:element" ||
          type == "node" || type == "view:node"
      | ElementKind.raw =>
          type == "rawElement" || type == "view:rawElement" ||
          type == name || type == "view:" ++ name ||
          type == "element" || type == "view:element" ||
          type == "node" || type == "view:node"
      | ElementKind.ui =>
          type == "uiElement" || type == "view:uiElement" ||
          type == "element" || type == "view:element" ||
          type == "node" || type == "view:node"

/-- Two-argument `is( type, name )` of each view class.  For every element
variant the source checks `name === this.name` and then a tag list that drops
the `node` tags; `Text#is` takes a single parameter so a second argument is
ignored by the JS call. -/
def VNode.isNamed (node : VNode) (type nm : String) : Bool :=
  match node with
  | VNode.text d => (VNode.text d).is type
  | VNode.element kind name _ =>
      nm == name &&
      (match kind with
       | ElementKind.container =>
           type == "containerElement" || type == "view:containerElement" ||
           type == "element" || type == "view:element"
       | ElementKind.rootEditable =>
           type == "rootElement" || type == "view:rootElement" ||
           type == "editableElement" || type == "view:editableElement" ||
           type == "containerElement" || type == "view:containerElement" ||
           type == "element" || type == "view:element"
       | ElementKind.empty =>
           type == "emptyElement" || type == "view:emptyElement" ||
           type == "element" || type == "view:element"
       | ElementKind.raw =>
           type == "rawElement" || type == "view:rawElement" ||
           type == "element" || type == "view:element"
       | ElementKind.ui =>
           type == "uiElement" || type == "view:uiElement" ||
           type == "element" || type == "view:element")

/-- The `lastChild && lastChild.is( 'element', 'br' )` test of the container
`getFillerOffset`: `children[ childCount - 1 ]` is `undefined` (falsy) for an
empty child list. -/
def lastChildIsBr (children : List VNode) : Bool :=
  match children.getLast? with
  | some lastChild => lastChild.isNamed "element" "br"
  | none => false

/-- `getFillerOffset` of `containerelement.ts`: child count after a trailing
`<br>`; otherwise `null` as soon as some child is not a UI element; otherwise
(all children are UI elements, vacuously so for zero children) the child
count. -/
def containerGetFillerOffset (children : List VNode) : Option Nat :=
  if lastChildIsBr children then some children.length
  else if children.all (fun child => child.is "uiElement") then some children.length
  else none

/-- Error identifiers of the `CKEditorError`s thrown by the sources in this
development. -/
inductive ViewError where
  | viewEmptyelementCannotAdd
  | viewRawelementCannotAdd
  | viewUielementCannotAdd
  | viewNodeNotFoundInParent
deriving DecidableEq

/-- Modelled from the spec: `element.ts` is not in the source sample; the base
`Element#_insertChild( index, items )` splices the supplied nodes into the
ordered child sequence at the given index. -/
def baseInsertChild (index : Nat) (nodes : List VNode)
    (children : List VNode) : List VNode :=
  children.take index ++ nodes ++ children.drop index

/-- `_insertChild` dispatched on the element variant: the overrides of
`emptyelement.ts`, `rawelement.ts` and `uielement.ts` throw their kind-specific
`CKEditorError` unconditionally; the container kinds use the base behaviour. -/
def insertChild (kind : ElementKind) (index : Nat) (nodes : List VNode)
    (children : List VNode) : Except ViewError (List VNode) :=
  match kind with
  | ElementKind.empty => Except.error ViewError.viewEmptyelementCannotAdd
  | ElementKind.raw => Except.error ViewError.viewRawelementCannotAdd
  | ElementKind.ui => Except.error ViewError.viewUielementCannotAdd
  | ElementKind.container => Except.ok (baseInsertChild index nodes children)
  | ElementKind.rootEditable => Except.ok (baseInsertChild index nodes children)

/-- The child sequence after an `_insertChild` attempt: a thrown error leaves
the element's children untouched. -/
def insertChildState (kind : ElementKind) (index : Nat) (nodes : List VNode)
    (children : List VNode) : List VNode :=
  match insertChild kind index nodes children with
  | Except.ok cs => cs
  | Except.error _ => children

/-- Modelled from the spec: `element.ts` is not in the source sample;
`Element#getChildIndex( node )` is `this._children.indexOf( node )`, the index
of the first occurrence in the ordered child sequence, `-1` (here `none`) when
the node is absent. -/
def getChildIndex : List VNode → VNode → Option Nat
  | [], _ => none
  | c :: cs, node =>
      if c = node then some 0 else (getChildIndex cs node).map (· + 1)

/-- The `index` getter of `node.ts`: `null` without a parent; the error
`view-node-not-found-in-parent` when `parent.getChildIndex( this ) == -1`;
the position otherwise.  The parent is given by its child list. -/
def nodeIndex (parentChildren : Option (List VNode)) (node : VNode) :
    Except ViewError (Option Nat) :=
  match parentChildren with
  | none => Except.ok none
  | some children =>
      match getChildIndex children node with
      | none => Except.error ViewError.viewNodeNotFoundInParent
      | some pos => Except.ok (some pos)

/-- C7: capability-tag inheritance closure.  For every element variant the
single-argument `is( type )` answers `true` for its own tag and for every
less-specific tag of its inheritance chain: a `ContainerElement` answers
`containerElement`, `element` and `node` (and the `view:`-prefixed forms); a
`RootEditableElement` additionally answers `editableElement` and
`containerElement`; an `EmptyElement` answers `emptyElement`, `element` and
`node`. -/
theorem elementVariant_is_inheritance_closure :
    ∀ (name : String) (cs : List VNode),
      ((VNode.element ElementKind.container name cs).is "containerElement" = true ∧
       (VNode.element ElementKind.container name cs).is "element" = true ∧
       (VNode.element ElementKind.container name cs).is "node" = true ∧
       (VNode.element ElementKind.container name cs).is "view:containerElement" = true ∧
       (VNode.element ElementKind.container name cs).is "view:element" = true ∧
       (VNode.element ElementKind.container name cs).is "view:node" = true) ∧
      ((VNode.element ElementKind.rootEditable name cs).is "rootElement" = true ∧
       (VNode.element ElementKind.rootEditable name cs).is "editableElement" = true ∧
       (VNode.element ElementKind.rootEditable name cs).is "containerElement" = true ∧
       (VNode.element ElementKind.rootEditable name cs).is "element" = true ∧
       (VNode.element ElementKind.rootEditable name cs).is "node" = true ∧
       (VNode.element ElementKind.rootEditable name cs).is "view:rootElement" = true ∧
       (VNode.element ElementKind.rootEditable name cs).is "view:editableElement" = true ∧
       (VNode.element ElementKind.rootEditable name cs).is "view:containerElement" = true ∧
       (VNode.element ElementKind.rootEditable name cs).is "view:element" = true ∧
       (VNode.element ElementKind.rootEditable name cs).is "view:node" = true) ∧
      ((VNode.element ElementKind.empty name cs).is "emptyElement" = true ∧
       (VNode.element ElementKind.empty name cs).is "element" = true ∧
       (VNode.element ElementKind.empty name cs).is "node" = true ∧
       (VNode.element ElementKind.empty name cs).is "view:emptyElement" = true ∧
       (VNode.element ElementKind.empty name cs).is "view:element" = true ∧
       (VNode.element ElementKind.empty name cs).is "view:node" = true) :=
  fun _ _ =>
    ⟨⟨rfl, rfl, rfl, rfl, rfl, rfl⟩,
     ⟨rfl, rfl, rfl, rfl, rfl, rfl, rfl, rfl, rfl, rfl⟩,
     ⟨rfl, rfl, rfl, rfl, rfl, rfl⟩⟩

/-- C10: the single-argument `is` of `RawElement` also matches the element's
own tag name — a raw element named `img` answers `img` and `view:img` — while
for `EmptyElement`, `UIElement` and `ContainerElement` the name-only query is
`false`; so the name-only query distinguishes raw elements from the other
child-forbidding variants. -/
theorem rawElement_is_matches_own_name :
    (∀ (name : String) (cs : List VNode),
      (VNode.element ElementKind.raw name cs).is name = true) ∧
    (∀ cs : List VNode,
      (VNode.element ElementKind.raw "img" cs).is "img" = true ∧
      (VNode.element ElementKind.raw "img" cs).is "view:img" = true ∧
      (VNode.element ElementKind.empty "img" cs).is "img" = false ∧
      (VNode.element ElementKind.empty "img" cs).is "view:img" = false ∧
      (VNode.element ElementKind.ui "img" cs).is "img" = false ∧
      (VNode.element ElementKind.ui "img" cs).is "view:img" = false ∧
      (VNode.element ElementKind.container "img" cs).is "img" = false ∧
      (VNode.element ElementKind.container "img" cs).is "view:img" = false) := by
  constructor
  · intro name cs
    simp [VNode.is]
  · intro cs
    exact ⟨rfl, rfl, rfl, rfl, rfl, rfl, rfl, rfl⟩

/-- C2 counterexample: for a container with zero children the source
`getFillerOffset` returns the child count `0`, not `null` — the vacuous
all-UI loop falls through to `return this.childCount`. -/
theorem containerGetFillerOffset_nil_counterexample :
    containerGetFillerOffset [] = some 0 ∧ containerGetFillerOffset [] ≠ none :=
  ⟨rfl, by decide⟩

/-- C2 amended: `getFillerOffset` of a container returns the child count when
the last child is a `br` element regardless of the other children; returns the
child count when every child is a UI element — including the zero-children
case, where it returns `0`; and returns `null` exactly when some child is not
a UI element and the last child is not a `br`. -/
theorem containerGetFillerOffset_policy :
    ∀ (cs : List VNode),
      (∀ lc, cs.getLast? = some lc → lc.isNamed "element" "br" = true →
        containerGetFillerOffset cs = some cs.length) ∧
      (cs.all (fun c => c.is "uiElement") = true →
        containerGetFillerOffset cs = some cs.length) ∧
      ((∃ c ∈ cs, c.is "uiElement" = false) → lastChildIsBr cs = false →
        containerGetFillerOffset cs = none) := by
  intro cs
  refine ⟨?_, ?_, ?_⟩
  · intro lc hlast hbr
    have hbrTrue : lastChildIsBr cs = true := by
      rw [lastChildIsBr, hlast]
      exact hbr
    rw [containerGetFillerOffset, if_pos hbrTrue]
  · intro hall
    by_cases hbr : lastChildIsBr cs = true
    · rw [containerGetFillerOffset, if_pos hbr]
    · rw [containerGetFillerOffset, if_neg hbr, if_pos hall]
  · intro hnonui hnbr
    have hall : cs.all (fun c => c.is "uiElement") = false := by
      obtain ⟨c, hc, hcui⟩ := hnonui
      rw [List.all_eq_false]
      exact ⟨c, hc, by simp [hcui]⟩
    rw [containerGetFillerOffset, if_neg (by simp [hnbr]), if_neg (by simp [hall])]

/-- Closed witness of `containerGetFillerOffset_policy` at concrete child
lists exercising all three branches (trailing `br`, all-UI including the
empty list, and a non-UI child without trailing `br`). -/
theorem containerGetFillerOffset_policy_witness :
    containerGetFillerOffset
      [VNode.text "x", VNode.element ElementKind.container "br" []] = some 2 ∧
    containerGetFillerOffset [VNode.element ElementKind.ui "span" []] = some 1 ∧
    containerGetFillerOffset ([] : List VNode) = some 0 ∧
    containerGetFillerOffset [VNode.text "x"] = none :=
  ⟨(containerGetFillerOffset_policy _).1
      (VNode.element ElementKind.container "br" []) rfl rfl,
   (containerGetFillerOffset_policy _).2.1 rfl,
   (containerGetFillerOffset_policy _).2.1 rfl,
   (containerGetFillerOffset_policy _).2.2
      ⟨VNode.text "x", by simp, rfl⟩ rfl⟩

/-- C4: the structurally closed variants reject every mutation — for every
`EmptyElement`, `RawElement` and `UIElement`, `_insertChild` with any index
and any (possibly empty) node list throws the kind-specific error
(`view-emptyelement-cannot-add`, `view-rawelement-cannot-add`,
`view-uielement-cannot-add`) and leaves the child sequence unchanged. -/
theorem closedVariant_insertChild_rejects :
    ∀ (index : Nat) (nodes : List VNode) (children : List VNode),
      insertChild ElementKind.empty index nodes children =
        Except.error ViewError.viewEmptyelementCannotAdd ∧
      insertChild ElementKind.raw index nodes children =
        Except.error ViewError.viewRawelementCannotAdd ∧
      insertChild ElementKind.ui index nodes children =
        Except.error ViewError.viewUielementCannotAdd ∧
      insertChildState ElementKind.empty index nodes children = children ∧
      insertChildState ElementKind.raw index nodes children = children ∧
      insertChildState ElementKind.ui index nodes children = children :=
  fun _ _ _ => ⟨rfl, rfl, rfl, rfl, rfl, rfl⟩

lemma getChildIndex_eq_none_iff (children : List VNode) (node : VNode) :
    getChildIndex children node = none ↔ node ∉ children := by
  induction children with
  | nil => simp [getChildIndex]
  | cons c cs ih =>
      by_cases hc : c = node
      · subst hc
        simp [getChildIndex]
      · rw [getChildIndex, if_neg hc, Option.map_eq_none', ih]
        constructor
        · intro h hmem
          rcases List.mem_cons.mp hmem with h1 | h2
          · exact hc h1.symm
          · exact h h2
        · intro h hmem
          exact h (List.mem_cons_of_mem _ hmem)

lemma getChildIndex_some_get (children : List VNode) (node : VNode) :
    ∀ p, getChildIndex children node = some p → children.get? p = some node := by
  induction children with
  | nil => intro p h; simp [getChildIndex] at h
  | cons c cs ih =>
      intro p h
      by_cases hc : c = node
      · subst hc
        rw [getChildIndex, if_pos rfl] at h
        injection h with h0
        subst h0
        rfl
      · rw [getChildIndex, if_neg hc] at h
        rcases hmap : getChildIndex cs node with _ | q
        · rw [hmap] at h
          simp at h
        · rw [hmap] at h
          simp at h
          subst h
          exact ih q hmap

/-- C6: positional queries fail loudly on corruption.  Reading `index`
returns `null` when the node has no parent, returns the node position in the
parent ordered child sequence when the parent contains it, and throws the
structural-corruption error `view-node-not-found-in-parent` when the parent
child list does not contain the node. -/
theorem nodeIndex_spec :
    ∀ (children : List VNode) (node : VNode),
      nodeIndex none node = Except.ok none ∧
      (node ∈ children →
        ∃ p, nodeIndex (some children) node = Except.ok (some p) ∧
          children.get? p = some node) ∧
      (node ∉ children →
        nodeIndex (some children) node =
          Except.error ViewError.viewNodeNotFoundInParent) := by
  intro children node
  refine ⟨rfl, ?_, ?_⟩
  · intro hmem
    rcases hidx : getChildIndex children node with _ | p
    · exact absurd hmem ((getChildIndex_eq_none_iff _ _).mp hidx)
    · exact ⟨p, by simp [nodeIndex, hidx], getChildIndex_some_get _ _ p hidx⟩
  · intro hnot
    have hnone : getChildIndex children node = none :=
      (getChildIndex_eq_none_iff _ _).mpr hnot
    simp [nodeIndex, hnone]

/-- Closed witness of `nodeIndex_spec`: a parentless node, a node found at
position 1 of its parent, and a node missing from the supposed parent child
list. -/
theorem nodeIndex_spec_witness :
    nodeIndex none (VNode.text "a") = Except.ok none ∧
    (VNode.text "b" ∈ [VNode.text "a", VNode.text "b"] ∧
      ∃ p, nodeIndex (some [VNode.text "a", VNode.text "b"]) (VNode.text "b") =
          Except.ok (some p) ∧
        [VNode.text "a", VNode.text "b"].get? p = some (VNode.text "b")) ∧
    (VNode.text "z" ∉ [VNode.text "a"] ∧
      nodeIndex (some [VNode.text "a"]) (VNode.text "z") =
        Except.error ViewError.viewNodeNotFoundInParent) := by
  have hmem : VNode.text "b" ∈ [VNode.text "a", VNode.text "b"] := by simp
  have hnot : VNode.text "z" ∉ [VNode.text "a"] := by
    intro h
    rw [List.mem_singleton] at h
    injection h with h2
    exact absurd h2 (by decide)
  exact ⟨(nodeIndex_spec [] (VNode.text "a")).1,
    ⟨hmem, (nodeIndex_spec _ _).2.1 hmem⟩,
    ⟨hnot, (nodeIndex_spec _ _).2.2 hnot⟩⟩

/- ======================================================================
   Section 3. Document order (node.ts isBefore / comparearrays)
   ====================================================================== -/

/-- Result of `compareArrays`: the source returns the string `'same'`,
`'prefix'` (here `shorter`: the first array starts the second), `'extension'`
(here `longer`) or the number of the first differing index. -/
inductive ArrayRelation where
  | same
  | shorter
  | longer
  | diffAt (index : Nat)
deriving DecidableEq

/-- Modelled from the spec: `comparearrays.ts` is not in the source sample.
Compare both paths element-wise; if one is a strict initial segment of the
other report which; otherwise report the first differing index. -/
def compareArrays : List Nat → List Nat → ArrayRelation
  | [], [] => ArrayRelation.same
  | [], _ :: _ => ArrayRelation.shorter
  | _ :: _, [] => ArrayRelation.longer
  | a :: as2, b :: bs =>
      if a = b then
        match compareArrays as2 bs with
        | ArrayRelation.diffAt k => ArrayRelation.diffAt (k + 1)
        | r => r
      else ArrayRelation.diffAt 0

/-- A node of a forest of view trees, identified by the root it hangs under
and its path of child indices (`getPath` of `node.ts`): object identity and
`root` comparison of the source map to equality of these coordinates. -/
structure NodeRef where
  root : Nat
  path : List Nat
deriving DecidableEq

/-- `Node#isBefore` from `node.ts`: `false` on the same node, `false` across
different roots, else compare the two paths — `'prefix'` means before,
`'extension'` means not before, and at the first differing index the numeric
order of the entries decides (the impossible `'same'` answer falls into the
JS default case, where `undefined < undefined` is `false`). -/
def NodeRef.isBefore (a b : NodeRef) : Bool :=
  if a = b then false
  else if a.root ≠ b.root then false
  else
    match compareArrays a.path b.path with
    | ArrayRelation.shorter => true
    | ArrayRelation.longer => false
    | ArrayRelation.same => false
    | ArrayRelation.diffAt k => decide (a.path.getD k 0 < b.path.getD k 0)

/-- Swapping the arguments of `compareArrays` swaps `shorter` and `longer`
and fixes `same` and `diffAt`. -/
def ArrayRelation.swap : ArrayRelation → ArrayRelation
  | ArrayRelation.same => ArrayRelation.same
  | ArrayRelation.shorter => ArrayRelation.longer
  | ArrayRelation.longer => ArrayRelation.shorter
  | ArrayRelation.diffAt k => ArrayRelation.diffAt k

lemma compareArrays_swap :
    ∀ (p q : List Nat), compareArrays q p = ArrayRelation.swap (compareArrays p q) := by
  intro p
  induction p with
  | nil =>
      intro q
      cases q <;> rfl
  | cons a as2 ih =>
      intro q
      cases q with
      | nil => rfl
      | cons b bs =>
          by_cases hab : a = b
          · subst hab
            rw [compareArrays, if_pos rfl, compareArrays, if_pos rfl, ih bs]
            cases compareArrays as2 bs <;> rfl
          · rw [compareArrays, if_neg (fun h => hab h.symm), compareArrays,
              if_neg hab]
            rfl

lemma compareArrays_same_iff :
    ∀ (p q : List Nat), compareArrays p q = ArrayRelation.same ↔ p = q := by
  intro p
  induction p with
  | nil =>
      intro q
      cases q <;> simp [compareArrays]
  | cons a as2 ih =>
      intro q
      cases q with
      | nil => simp [compareArrays]
      | cons b bs =>
          by_cases hab : a = b
          · subst hab
            rw [compareArrays, if_pos rfl]
            constructor
            · intro h
              rcases hr : compareArrays as2 bs with _ | _ | _ | k <;> rw [hr] at h
              · rw [(ih bs).mp hr]
              · exact absurd h (by simp)
              · exact absurd h (by simp)
              · exact absurd h (by simp)
            · intro h
              injection h with h1 h2
              rw [(ih bs).mpr h2]
          · rw [compareArrays, if_neg hab]
            constructor
            · intro h
              exact absurd h (by simp)
            · intro h
              injection h with h1 h2
              exact absurd h1 hab

lemma compareArrays_diffAt_ne :
    ∀ (p q : List Nat) (k : Nat), compareArrays p q = ArrayRelation.diffAt k →
      p.getD k 0 ≠ q.getD k 0 := by
  intro p
  induction p with
  | nil =>
      intro q k h
      cases q <;> simp [compareArrays] at h
  | cons a as2 ih =>
      intro q k h
      cases q with
      | nil => simp [compareArrays] at h
      | cons b bs =>
          by_cases hab : a = b
          · subst hab
            rw [compareArrays, if_pos rfl] at h
            rcases hr : compareArrays as2 bs with _ | _ | _ | m <;> rw [hr] at h
            · exact absurd h (by simp)
            · exact absurd h (by simp)
            · exact absurd h (by simp)
            · injection h with h1
              subst h1
              exact ih bs m hr
          · rw [compareArrays, if_neg hab] at h
            injection h with h1
            subst h1
            exact hab

/-- Exactly one of three alternatives holds. -/
def ExactlyOneOfThree (P Q R : Prop) : Prop :=
  (P ∧ ¬Q ∧ ¬R) ∨ (¬P ∧ Q ∧ ¬R) ∨ (¬P ∧ ¬Q ∧ R)

lemma isBefore_eq_of_ne (a b : NodeRef) (hab : a ≠ b) (hroot : a.root = b.root) :
    a.isBefore b = (match compareArrays a.path b.path with
      | ArrayRelation.shorter => true
      | ArrayRelation.longer => false
      | ArrayRelation.same => false
      | ArrayRelation.diffAt k => decide (a.path.getD k 0 < b.path.getD k 0)) := by
  rw [NodeRef.isBefore, if_neg hab, if_neg (by simp [hroot])]

/-- C5: document-order trichotomy.  For every pair of nodes with the same
root exactly one of `A.isBefore(B)`, `B.isBefore(A)`, `A = B` holds; and for
nodes with different roots both `isBefore` queries return `false` rather than
raising an error. -/
theorem isBefore_trichotomy :
    ∀ (a b : NodeRef),
      (a.root = b.root →
        ExactlyOneOfThree (a.isBefore b = true) (b.isBefore a = true) (a = b)) ∧
      (a.root ≠ b.root →
        a.isBefore b = false ∧ b.isBefore a = false) := by
  intro a b
  constructor
  · intro hroot
    by_cases hab : a = b
    · subst hab
      right; right
      exact ⟨by simp [NodeRef.isBefore], by simp [NodeRef.isBefore], rfl⟩
    · have hba : b ≠ a := fun h => hab h.symm
      have hpath : a.path ≠ b.path := by
        intro hp
        refine hab ?_
        obtain ⟨ra, pa⟩ := a
        obtain ⟨rb, pb⟩ := b
        simp only [NodeRef.mk.injEq]
        exact ⟨hroot, hp⟩
      have hswap := compareArrays_swap a.path b.path
      rw [isBefore_eq_of_ne a b hab hroot, isBefore_eq_of_ne b a hba hroot.symm, hswap]
      rcases hcmp : compareArrays a.path b.path with _ | _ | _ | k
      · exact absurd ((compareArrays_same_iff _ _).mp hcmp) hpath
      · left
        exact ⟨rfl, by simp [ArrayRelation.swap], hab⟩
      · right; left
        exact ⟨by simp [ArrayRelation.swap], rfl, hab⟩
      · have hne := compareArrays_diffAt_ne a.path b.path k hcmp
        rcases Nat.lt_or_ge (a.path.getD k 0) (b.path.getD k 0) with hlt | hge
        · left
          refine ⟨decide_eq_true hlt, ?_, hab⟩
          intro h
          have := of_decide_eq_true h
          omega
        · have hgt : b.path.getD k 0 < a.path.getD k 0 :=
            Nat.lt_of_le_of_ne hge (fun h => hne h.symm)
          right; left
          refine ⟨?_, decide_eq_true hgt, hab⟩
          intro h
          have := of_decide_eq_true h
          omega
  · intro hroot
    have hab : a ≠ b := fun h => hroot (by rw [h])
    have hba : b ≠ a := fun h => hab h.symm
    constructor
    · rw [NodeRef.isBefore, if_neg hab, if_pos hroot]
    · rw [NodeRef.isBefore, if_neg hba, if_pos (fun h => hroot h.symm)]

/-- Closed witness of `isBefore_trichotomy`: two same-root nodes (the first
before the second at their first differing index) and two nodes under
different roots. -/
theorem isBefore_trichotomy_witness :
    ((⟨0, [1]⟩ : NodeRef).root = (⟨0, [2, 5]⟩ : NodeRef).root ∧
      ExactlyOneOfThree
        ((⟨0, [1]⟩ : NodeRef).isBefore ⟨0, [2, 5]⟩ = true)
        ((⟨0, [2, 5]⟩ : NodeRef).isBefore ⟨0, [1]⟩ = true)
        ((⟨0, [1]⟩ : NodeRef) = ⟨0, [2, 5]⟩)) ∧
    ((⟨0, [1]⟩ : NodeRef).root ≠ (⟨3, [1]⟩ : NodeRef).root ∧
      (⟨0, [1]⟩ : NodeRef).isBefore ⟨3, [1]⟩ = false ∧
      (⟨3, [1]⟩ : NodeRef).isBefore ⟨0, [1]⟩ = false) :=
  ⟨⟨rfl, (isBefore_trichotomy ⟨0, [1]⟩ ⟨0, [2, 5]⟩).1 rfl⟩,
   ⟨by decide, (isBefore_trichotomy ⟨0, [1]⟩ ⟨3, [1]⟩).2 (by decide)⟩⟩

/- ======================================================================
   Section 4. Text `_data` setter (text.ts / node.ts `_fireChange`)
   ====================================================================== -/

/-- The two primitive statements the `_data` setter body of `text.ts`
executes: `this._fireChange( 'text', this )` and `this._textData = data`. -/
inductive TextSetterStmt where
  | fireChange
  | assignData (value : String)
deriving DecidableEq

/-- State of a text node: its stored data and the length of its ancestor
chain (used by the bubbling `_fireChange`). -/
structure TextState where
  data : String
  ancestorCount : Nat
deriving DecidableEq

/-- One delivered notification: which node of the bubbling chain received it
(0 is the text node itself, then its ancestors in order up to the root), the
event name, and what `node.data` returns when a listener reads it during this
notification. -/
structure FiredEvent where
  target : Nat
  eventType : String
  observedData : String
deriving DecidableEq

/-- `Node#_fireChange` from `node.ts`: the node fires `change:` + type on
itself, then unconditionally re-fires on its parent, recursively to the root,
so the event is delivered along the whole ancestor chain; each listener that
reads the node's data observes the data stored at this moment. -/
def fireChangeEvents (s : TextState) : List FiredEvent :=
  (List.range (s.ancestorCount + 1)).map
    (fun k => ⟨k, "change:text", s.data⟩)

/-- Interpreter for setter bodies: `fireChange` emits the bubbled
notifications carrying the data observable at that moment; `assignData`
stores the new string. -/
def runTextSetter : List TextSetterStmt → TextState → List FiredEvent × TextState
  | [], s => ([], s)
  | TextSetterStmt.fireChange :: rest, s =>
      let r := runTextSetter rest s
      (fireChangeEvents s ++ r.1, r.2)
  | TextSetterStmt.assignData v :: rest, s =>
      runTextSetter rest { s with data := v }

/-- The body of the `_data` setter of `text.ts`, in source order: first
`this._fireChange( 'text', this )`, then `this._textData = data`. -/
def textDataSetterBody (data : String) : List TextSetterStmt :=
  [TextSetterStmt.fireChange, TextSetterStmt.assignData data]

/-- C9: setting a text node's `_data` fires the `change:text` notification,
bubbled through the whole ancestor chain, before the new string is stored:
every listener that reads the node's data during the notification observes
the previous text, the notification reaches the node and each of its
ancestors, and after the setter returns the stored data equals the newly
assigned string. -/
theorem textDataSetter_fires_before_store :
    ∀ (s : TextState) (v : String),
      (∀ e ∈ (runTextSetter (textDataSetterBody v) s).1,
          e.observedData = s.data ∧ e.eventType = "change:text") ∧
      (runTextSetter (textDataSetterBody v) s).1.length = s.ancestorCount + 1 ∧
      (runTextSetter (textDataSetterBody v) s).2.data = v := by
  intro s v
  refine ⟨?_, ?_, rfl⟩
  · intro e he
    simp only [textDataSetterBody, runTextSetter, List.append_nil,
      fireChangeEvents, List.mem_map, List.mem_range] at he
    obtain ⟨k, hk, hke⟩ := he
    rw [← hke]
    exact ⟨rfl, rfl⟩
  · simp [textDataSetterBody, runTextSetter, fireChangeEvents]

/- ======================================================================
   Section 5. Selection and DocumentSelection (documentselection.ts)
   ====================================================================== -/

/-- A view position, per the spec data model: a (container, offset) pair,
with the container named by its root and path. -/
structure ViewPosition where
  root : Nat
  path : List Nat
  offset : Nat
deriving DecidableEq

/-- The path of the tree slot a position points at. -/
def ViewPosition.key (p : ViewPosition) : List Nat := p.path ++ [p.offset]

/-- Modelled from the spec: positions are comparable only within the same
root tree; document order of positions by path-and-offset comparison. -/
def posIsBefore (p q : ViewPosition) : Bool :=
  if p.root ≠ q.root then false
  else
    match compareArrays p.key q.key with
    | ArrayRelation.shorter => true
    | ArrayRelation.longer => false
    | ArrayRelation.same => false
    | ArrayRelation.diffAt k => decide (p.key.getD k 0 < q.key.getD k 0)

/-- A view range: an ordered (start, end) position pair; the source field
`end` is a Lean keyword and is called `endPos` here. -/
structure ViewRange where
  start : ViewPosition
  endPos : ViewPosition
deriving DecidableEq

/-- Modelled from the spec: `selection.ts` is not in the source sample.  The
state of a `Selection`: its ordered range list (`_ranges`), the backward flag
of the most recently set range (`_lastRangeBackward`), and the fake/label
pair (`_isFake`, `_fakeSelectionLabel`). -/
structure Selection where
  ranges : List ViewRange
  lastRangeBackward : Bool
  fake : Bool
  label : String
deriving DecidableEq

def Selection.isFake (s : Selection) : Bool := s.fake

def Selection.fakeSelectionLabel (s : Selection) : String := s.label

def Selection.rangeCount (s : Selection) : Nat := s.ranges.length

def Selection.isBackward (s : Selection) : Bool :=
  s.lastRangeBackward && !s.ranges.isEmpty

/-- Modelled from the spec: the anchor is the start or end of the most
recently added range, the end when the selection is backward. -/
def Selection.anchor (s : Selection) : Option ViewPosition :=
  s.ranges.getLast?.map (fun r => if s.lastRangeBackward then r.endPos else r.start)

/-- Modelled from the spec: the focus is the opposite boundary of the most
recently added range. -/
def Selection.focus (s : Selection) : Option ViewPosition :=
  s.ranges.getLast?.map (fun r => if s.lastRangeBackward then r.start else r.endPos)

/-- Modelled from the spec: collapsed iff there is exactly one range and it
is collapsed. -/
def Selection.isCollapsed (s : Selection) : Bool :=
  match s.ranges with
  | [r] => r.start == r.endPos
  | _ => false

def Selection.getRanges (s : Selection) : List ViewRange := s.ranges

/-- Modelled from the spec: the range whose start position is before the
start of every other range. -/
def Selection.getFirstRange (s : Selection) : Option ViewRange :=
  s.ranges.foldl
    (fun acc r =>
      match acc with
      | none => some r
      | some m => if posIsBefore r.start m.start then some r else some m)
    none

/-- Modelled from the spec: the range whose end position is after the end of
every other range. -/
def Selection.getLastRange (s : Selection) : Option ViewRange :=
  s.ranges.foldl
    (fun acc r =>
      match acc with
      | none => some r
      | some m => if posIsBefore m.endPos r.endPos then some r else some m)
    none

def Selection.getFirstPosition (s : Selection) : Option ViewPosition :=
  s.getFirstRange.map (fun r => r.start)

def Selection.getLastPosition (s : Selection) : Option ViewPosition :=
  s.getLastRange.map (fun r => r.endPos)

/-- Resolving a path in a view tree to the node it denotes. -/
def resolveNode (t : VNode) : List Nat → Option VNode
  | [] => some t
  | k :: rest =>
      match t with
      | VNode.text _ => none
      | VNode.element _ _ children =>
          match children.get? k with
          | some c => resolveNode c rest
          | none => none

/-- Resolving a node reference in a forest of root trees. -/
def resolveRef (W : List VNode) (r : NodeRef) : Option VNode :=
  match W.get? r.root with
  | some t => resolveNode t r.path
  | none => none

/-- Whether a reference denotes an editable element (answers the
`editableElement` capability tag). -/
def isEditableRef (W : List VNode) (r : NodeRef) : Bool :=
  match resolveRef W r with
  | some n => n.is "editableElement"
  | none => false

/-- All initial segments of a path, longest (innermost node) first. -/
def pathPrefixSeq (path : List Nat) : List (List Nat) :=
  ((List.range (path.length + 1)).reverse).map (fun k => path.take k)

/-- Modelled from the spec: `null` unless the selection's anchor resolves
inside an ancestor tagged `EditableElement`; the innermost such ancestor. -/
def Selection.editableElement (W : List VNode) (s : Selection) : Option NodeRef :=
  match s.anchor with
  | none => none
  | some p =>
      ((pathPrefixSeq p.path).find? (fun q => isEditableRef W ⟨p.root, q⟩)).map
        (fun q => ⟨p.root, q⟩)

/-- Modelled from the spec: the element contained by a range spanning exactly
one child slot, if that slot holds an element. -/
def getContainedElement (W : List VNode) (r : ViewRange) : Option VNode :=
  if r.start.root = r.endPos.root ∧ r.start.path = r.endPos.path ∧
      r.endPos.offset = r.start.offset + 1 then
    match resolveRef W ⟨r.start.root, r.start.path ++ [r.start.offset]⟩ with
    | some (VNode.element k n cs) => some (VNode.element k n cs)
    | _ => none
  else none

/-- Modelled from the spec: the selected element exists iff the selection has
exactly one range and that range contains exactly one element. -/
def Selection.getSelectedElement (W : List VNode) (s : Selection) : Option VNode :=
  match s.ranges with
  | [r] => getContainedElement W r
  | _ => none

/-- Modelled from the spec: equal iff same backward flag and the same ranges
in iteration order. -/
def Selection.isEqual (s1 s2 : Selection) : Bool :=
  s1.isBackward == s2.isBackward && s1.ranges == s2.ranges

/-- Modelled from the spec: similar iff same backward flag, same range count
and the trimmed ranges match symmetrically, in any order; the trimming
operation lives in `range.ts` (not in the sample) and is a parameter. -/
def Selection.isSimilar (trim : ViewRange → ViewRange) (s1 s2 : Selection) : Bool :=
  s1.isBackward == s2.isBackward &&
  s1.rangeCount == s2.rangeCount &&
  ((s1.ranges.map trim).all (fun r => (s2.ranges.map trim).contains r) &&
   (s2.ranges.map trim).all (fun r => (s1.ranges.map trim).contains r))

/-- Modelled from the spec: a fresh `Selection` has no ranges and cleared
flags. -/
def Selection.new : Selection := ⟨[], false, false, ""⟩

/-- Modelled from the spec: `setTo` replaces the ranges, the backward flag
and the fake/label pair. -/
def Selection.setTo (_s : Selection) (ranges : List ViewRange)
    (backward fake : Bool) (label : String) : Selection :=
  ⟨ranges, backward, fake, label⟩

/-- Modelled from the spec: `setFocus` moves the focus of the most recently
set range to the given position, recomputing the backward flag as "focus
precedes anchor"; without an anchor nothing changes. -/
def Selection.setFocus (s : Selection) (p : ViewPosition) : Selection :=
  match s.anchor with
  | none => s
  | some a =>
      let newBackward := posIsBefore p a
      let newRange := if newBackward then ViewRange.mk p a else ViewRange.mk a p
      { s with
          ranges := s.ranges.dropLast ++ [newRange],
          lastRangeBackward := newBackward }

/-- `DocumentSelection` from `documentselection.ts`: its only state is the
privately wrapped `Selection` (`this._selection`). -/
structure DocumentSelection where
  _selection : Selection

/-- The source constructor: `this._selection = new Selection()` and, when
arguments are given, `this._selection.setTo( ...args )`. -/
def DocumentSelection.new : DocumentSelection := ⟨Selection.new⟩

def DocumentSelection.newWith (ranges : List ViewRange)
    (backward fake : Bool) (label : String) : DocumentSelection :=
  ⟨Selection.new.setTo ranges backward fake label⟩

def DocumentSelection.isFake (ds : DocumentSelection) : Bool :=
  ds._selection.isFake

def DocumentSelection.fakeSelectionLabel (ds : DocumentSelection) : String :=
  ds._selection.fakeSelectionLabel

def DocumentSelection.anchor (ds : DocumentSelection) : Option ViewPosition :=
  ds._selection.anchor

def DocumentSelection.focus (ds : DocumentSelection) : Option ViewPosition :=
  ds._selection.focus

def DocumentSelection.isCollapsed (ds : DocumentSelection) : Bool :=
  ds._selection.isCollapsed

def DocumentSelection.rangeCount (ds : DocumentSelection) : Nat :=
  ds._selection.rangeCount

def DocumentSelection.isBackward (ds : DocumentSelection) : Bool :=
  ds._selection.isBackward

def DocumentSelection.editableElement (W : List VNode)
    (ds : DocumentSelection) : Option NodeRef :=
  ds._selection.editableElement W

def DocumentSelection.getRanges (ds : DocumentSelection) : List ViewRange :=
  ds._selection.getRanges

def DocumentSelection.getFirstRange (ds : DocumentSelection) : Option ViewRange :=
  ds._selection.getFirstRange

def DocumentSelection.getLastRange (ds : DocumentSelection) : Option ViewRange :=
  ds._selection.getLastRange

def DocumentSelection.getFirstPosition (ds : DocumentSelection) : Option ViewPosition :=
  ds._selection.getFirstPosition

def DocumentSelection.getLastPosition (ds : DocumentSelection) : Option ViewPosition :=
  ds._selection.getLastPosition

def DocumentSelection.getSelectedElement (W : List VNode)
    (ds : DocumentSelection) : Option VNode :=
  ds._selection.getSelectedElement W

def DocumentSelection.isEqual (ds : DocumentSelection) (other : Selection) : Bool :=
  ds._selection.isEqual other

def DocumentSelection.isSimilar (trim : ViewRange → ViewRange)
    (ds : DocumentSelection) (other : Selection) : Bool :=
  ds._selection.isSimilar trim other

/-- Privileged mutator `_setTo`: delegates to the wrapped selection. -/
def DocumentSelection.setToPriv (ds : DocumentSelection) (ranges : List ViewRange)
    (backward fake : Bool) (label : String) : DocumentSelection :=
  ⟨ds._selection.setTo ranges backward fake label⟩

/-- Privileged mutator `_setFocus`: delegates to the wrapped selection. -/
def DocumentSelection.setFocusPriv (ds : DocumentSelection)
    (p : ViewPosition) : DocumentSelection :=
  ⟨ds._selection.setFocus p⟩

/-- The closed set of mutations available on a document selection: the two
privileged entry points. -/
inductive SelectionOp where
  | setTo (ranges : List ViewRange) (backward fake : Bool) (label : String)
  | setFocus (p : ViewPosition)

def Selection.applyOp (s : Selection) : SelectionOp → Selection
  | SelectionOp.setTo ranges backward fake label => s.setTo ranges backward fake label
  | SelectionOp.setFocus p => s.setFocus p

def DocumentSelection.applyOp (ds : DocumentSelection) :
    SelectionOp → DocumentSelection
  | SelectionOp.setTo ranges backward fake label =>
      ds.setToPriv ranges backward fake label
  | SelectionOp.setFocus p => ds.setFocusPriv p

/-- The tuple of every public reader of a selection. -/
structure SelectionReaders where
  isFake : Bool
  fakeSelectionLabel : String
  anchor : Option ViewPosition
  focus : Option ViewPosition
  isCollapsed : Bool
  rangeCount : Nat
  isBackward : Bool
  editableElement : Option NodeRef
  ranges : List ViewRange
  firstRange : Option ViewRange
  lastRange : Option ViewRange
  firstPosition : Option ViewPosition
  lastPosition : Option ViewPosition
  selectedElement : Option VNode

def Selection.readers (W : List VNode) (s : Selection) : SelectionReaders :=
  ⟨s.isFake, s.fakeSelectionLabel, s.anchor, s.focus, s.isCollapsed,
   s.rangeCount, s.isBackward, s.editableElement W, s.getRanges,
   s.getFirstRange, s.getLastRange, s.getFirstPosition, s.getLastPosition,
   s.getSelectedElement W⟩

def DocumentSelection.readers (W : List VNode)
    (ds : DocumentSelection) : SelectionReaders :=
  ⟨ds.isFake, ds.fakeSelectionLabel, ds.anchor, ds.focus, ds.isCollapsed,
   ds.rangeCount, ds.isBackward, ds.editableElement W, ds.getRanges,
   ds.getFirstRange, ds.getLastRange, ds.getFirstPosition, ds.getLastPosition,
   ds.getSelectedElement W⟩

lemma foldl_selection_commutes :
    ∀ (ops : List SelectionOp) (ds : DocumentSelection),
      (ops.foldl DocumentSelection.applyOp ds)._selection =
        ops.foldl Selection.applyOp ds._selection := by
  intro ops
  induction ops with
  | nil => intro ds; rfl
  | cons op rest ih =>
      intro ds
      rw [List.foldl_cons, List.foldl_cons]
      have hop : (DocumentSelection.applyOp ds op)._selection =
          Selection.applyOp ds._selection op := by
        cases op <;> rfl
      rw [← hop]
      exact ih _

/-- C8: `DocumentSelection` is a pure projection of its privately wrapped
`Selection`.  After any sequence of mutations through the only available
entry points (`_setTo`, `_setFocus`), the wrapped state equals the state of a
bare `Selection` driven by the same calls, and every public reader (isFake,
fakeSelectionLabel, anchor, focus, isCollapsed, rangeCount, isBackward,
editableElement, getRanges, getFirstRange, getLastRange, getFirstPosition,
getLastPosition, getSelectedElement, isEqual, isSimilar) returns exactly the
corresponding reader of that wrapped selection, with no independent state. -/
theorem documentSelection_pure_projection :
    ∀ (W : List VNode) (ops : List SelectionOp) (ds : DocumentSelection),
      (ops.foldl DocumentSelection.applyOp ds)._selection =
        ops.foldl Selection.applyOp ds._selection ∧
      DocumentSelection.readers W (ops.foldl DocumentSelection.applyOp ds) =
        Selection.readers W (ops.foldl Selection.applyOp ds._selection) ∧
      (∀ other : Selection,
        (ops.foldl DocumentSelection.applyOp ds).isEqual other =
          (ops.foldl Selection.applyOp ds._selection).isEqual other) ∧
      (∀ (trim : ViewRange → ViewRange) (other : Selection),
        DocumentSelection.isSimilar trim (ops.foldl DocumentSelection.applyOp ds) other =
          Selection.isSimilar trim (ops.foldl Selection.applyOp ds._selection) other) := by
  intro W ops ds
  have hsel := foldl_selection_commutes ops ds
  refine ⟨hsel, ?_, ?_, ?_⟩
  · rw [← hsel]
    rfl
  · intro other
    rw [← hsel]
    rfl
  · intro trim other
    rw [← hsel]
    rfl
